import Mathlib

/-!
Verification of the maze-game raycasting core: a shallow embedding of
`entities/maze.py`, `entities/player.py` and `graphics/raycaster.py`.

Python floats are modelled as exact rationals; the transcendental library
calls (`math.cos`, `math.sin`, `math.radians`) are abstracted as function
parameters `cosF`, `sinF`, `rad : ℚ → ℚ`, threaded through the definitions
exactly where the source calls them.  Python `int(x)` (truncation toward
zero) is modelled by `truncInt`; Python `a % b` (sign of divisor) by `qmod`.
Fallible Python code (a `ZeroDivisionError`) is modelled with `Option`.
-/

/-- Python `int(x)`: truncation of a rational toward zero. -/
def truncInt (q : ℚ) : ℤ := if 0 ≤ q then ⌊q⌋ else -⌊-q⌋

/-- Python `a % b` for floats: `a - b * floor(a / b)` (result has the
divisor's sign; lies in `[0, b)` for `b > 0`). -/
def qmod (a b : ℚ) : ℚ := a - b * ⌊a / b⌋

/-- `entities/maze.py` — the `Maze` class: a grid of integer cell codes
(0 = open, 1 = wall, 9 = exit) with cached `width`/`height`. -/
structure Maze where
  maze_data : List (List ℤ)
  width : ℕ
  height : ℕ
deriving Repr, DecidableEq

/-- The `Maze.__init__` constructor: `width = len(maze_data[0])`,
`height = len(maze_data)`. -/
def mkMaze (md : List (List ℤ)) : Maze :=
  { maze_data := md, width := (md.headD []).length, height := md.length }

/-- The Python expression `maze_data[y][x]`, evaluated after the bounds
guard has ensured both indices are in range (total lookup with default 0). -/
def Maze.cell (m : Maze) (x y : ℤ) : ℤ :=
  (m.maze_data.getD y.toNat []).getD x.toNat 0

/-- `Maze.is_wall`: out-of-bounds coordinates are walls; in bounds, the
cell code is compared with 1. -/
def Maze.is_wall (m : Maze) (x y : ℤ) : Bool :=
  if x < 0 ∨ y < 0 ∨ (m.width : ℤ) ≤ x ∨ (m.height : ℤ) ≤ y then true
  else m.cell x y == 1

/-- `Maze.is_exit`: out-of-bounds coordinates are not exits; in bounds, the
cell code is compared with 9. -/
def Maze.is_exit (m : Maze) (x y : ℤ) : Bool :=
  if x < 0 ∨ y < 0 ∨ (m.width : ℤ) ≤ x ∨ (m.height : ℤ) ≤ y then false
  else m.cell x y == 9

/-- `entities/player.py` — the `Player` class state: continuous position
and an orientation angle in degrees. -/
structure PlayerS where
  x : ℚ
  y : ℚ
  angle : ℚ
deriving Repr, DecidableEq

/-- `Player._can_move_to`: tests the four corners of the axis-aligned
square of half-width `radius` centred at `(x, y)` against the grid;
any corner on a wall rejects the move. -/
def canMoveTo (x y : ℚ) (m : Maze) (radius : ℚ) : Bool :=
  [(x - radius, y - radius), (x + radius, y - radius),
   (x - radius, y + radius), (x + radius, y + radius)].all
    (fun c => !(m.is_wall (truncInt c.1) (truncInt c.2)))

/-- The collision/commit step shared by `Player.update` (lines 76-82) and
`Game.update` (lines 147-153): the x-delta is tested against the current
y, then the y-delta is tested against the possibly updated x. -/
def applyMovement (p : PlayerS) (m : Maze) (radius dx dy : ℚ) : PlayerS :=
  let new_x := p.x + dx
  let new_y := p.y + dy
  let p1 := if canMoveTo new_x p.y m radius then { p with x := new_x } else p
  if canMoveTo p1.x new_y m radius then { p1 with y := new_y } else p1

/-- `Player.set_angle`: stores `angle % 360`. -/
def PlayerS.set_angle (p : PlayerS) (angle : ℚ) : PlayerS :=
  { p with angle := qmod angle 360 }

/-- `Player.turn`: stores `(angle + angle_change) % 360`. -/
def PlayerS.turn (p : PlayerS) (angle_change : ℚ) : PlayerS :=
  { p with angle := qmod (p.angle + angle_change) 360 }

-- Basic facts about the truncation and modulo models.

theorem truncInt_nonneg (q : ℚ) (h : 0 ≤ q) : truncInt q = ⌊q⌋ := by
  simp [truncInt, h]

theorem truncInt_le_self_of_nonneg (q : ℚ) (h : 0 ≤ q) :
    (truncInt q : ℚ) ≤ q := by
  rw [truncInt_nonneg q h]; exact Int.floor_le q

theorem sub_truncInt_lt_one (q : ℚ) : q - truncInt q < 1 := by
  by_cases h : 0 ≤ q
  · rw [truncInt_nonneg q h]
    have := Int.sub_one_lt_floor q
    linarith
  · push_neg at h
    simp only [truncInt, not_le.mpr h, if_neg (not_le.mpr h)]
    push_cast
    have : (⌊-q⌋ : ℚ) ≤ -q := Int.floor_le (-q)
    linarith

theorem neg_one_lt_sub_truncInt (q : ℚ) : -1 < q - truncInt q := by
  by_cases h : 0 ≤ q
  · rw [truncInt_nonneg q h]
    have : (⌊q⌋ : ℚ) ≤ q := Int.floor_le q
    linarith
  · push_neg at h
    simp only [truncInt, not_le.mpr h, if_neg (not_le.mpr h)]
    push_cast
    have := Int.sub_one_lt_floor (-q)
    linarith

theorem sub_truncInt_nonneg (q : ℚ) (h : 0 ≤ q) : 0 ≤ q - truncInt q := by
  have := truncInt_le_self_of_nonneg q h
  linarith

theorem qmod_nonneg (a b : ℚ) (hb : 0 < b) : 0 ≤ qmod a b := by
  have h := Int.floor_le (a / b)
  have : b * ⌊a / b⌋ ≤ b * (a / b) := by
    exact mul_le_mul_of_nonneg_left h (le_of_lt hb)
  have hb' : b ≠ 0 := ne_of_gt hb
  rw [mul_div_cancel₀ a hb'] at this
  simpa [qmod] using this

theorem qmod_lt (a b : ℚ) (hb : 0 < b) : qmod a b < b := by
  have h := Int.lt_floor_add_one (a / b)
  have := (div_lt_iff₀ hb).mp (by linarith : a / b < ⌊a / b⌋ + 1)
  simp only [qmod]
  nlinarith

/-- `graphics/raycaster.py` — the result of `_cast_single_ray`: the raw
marching distance, the full hit coordinates, the texture offset and the
wall-face orientation flag. -/
structure SingleRay where
  distance : ℚ
  wall_x : ℚ
  wall_y : ℚ
  texture_u : ℚ
  hit_vertical : Bool
deriving Repr, DecidableEq, Inhabited

/-- A record of the sequence returned by `cast_rays`: the fisheye-corrected
distance plus the raw hit metadata and the absolute ray angle. -/
structure Ray where
  distance : ℚ
  angle : ℚ
  wall_x : ℚ
  wall_y : ℚ
  texture_u : ℚ
  hit_vertical : Bool
deriving Repr, DecidableEq, Inhabited

/-- The marching step size of `_cast_single_ray` (`step = 0.02`). -/
def rayStep : ℚ := 1 / 50

/-- The body of the marching loop of `_cast_single_ray` at loop index `i`:
`some` hit record if `maze.is_wall(int(x), int(y))` fires there, else
`none`.  `dx`, `dy` are the direction components computed before the loop. -/
def rayHitTest (p : PlayerS) (m : Maze) (dx dy : ℚ) (i : ℕ) :
    Option SingleRay :=
  let distance := (i : ℚ) * rayStep
  let x := p.x + dx * distance
  let y := p.y + dy * distance
  if m.is_wall (truncInt x) (truncInt y) then
    let wall_x := x - truncInt x
    let wall_y := y - truncInt y
    let prev_x := p.x + dx * (distance - rayStep)
    let hit_vertical := truncInt prev_x != truncInt x
    let texture_u := if hit_vertical then wall_y else wall_x
    some { distance := distance, wall_x := x, wall_y := y,
           texture_u := texture_u, hit_vertical := hit_vertical }
  else none

/-- The marching loop of `_cast_single_ray`:
`for i in range(int(MAX_DEPTH / step))`, returning on the first hit. -/
def rayMarch (p : PlayerS) (m : Maze) (maxDepth dx dy : ℚ) :
    Option SingleRay :=
  (List.range (truncInt (maxDepth / rayStep)).toNat).findSome?
    (rayHitTest p m dx dy)

/-- The sentinel "open sky" record returned when the loop finds no wall. -/
def sentinelRay (maxDepth : ℚ) : SingleRay :=
  { distance := maxDepth, wall_x := 0, wall_y := 0,
    texture_u := 0, hit_vertical := false }

/-- `Raycaster._cast_single_ray`: direction from the trig library applied
to `radians(angle)`, then the fixed-step march up to `MAX_DEPTH`. -/
def castSingleRay (cosF sinF rad : ℚ → ℚ) (p : PlayerS) (m : Maze)
    (maxDepth : ℚ) (angle : ℚ) : SingleRay :=
  let angle_rad := rad angle
  let dx := cosF angle_rad
  let dy := sinF angle_rad
  (rayMarch p m maxDepth dx dy).getD (sentinelRay maxDepth)

/-- The numeric fields of the settings singleton that the raycaster reads
(`FOV`, `NUM_RAYS`, `MAX_DEPTH`).  `NUM_RAYS` feeds Python's `range`, so it
is an integer; the others are modelled as rationals. -/
structure SettingsS where
  FOV : ℚ
  NUM_RAYS : ℤ
  MAX_DEPTH : ℚ
deriving Repr, DecidableEq

/-- The `Raycaster` object state: the referenced player and maze, the
settings snapshot, and the cached `half_fov` / `delta_angle`. -/
structure RaycasterS where
  player : PlayerS
  maze : Maze
  settings : SettingsS
  half_fov : ℚ
  delta_angle : ℚ
deriving Repr, DecidableEq

/-- `Raycaster.__init__`: caches `half_fov = FOV / 2` and runs
`_update_settings`, which divides by `NUM_RAYS` (a `ZeroDivisionError`,
modelled as `none`, when `NUM_RAYS = 0`). -/
def mkRaycaster (p : PlayerS) (m : Maze) (s : SettingsS) :
    Option RaycasterS :=
  if s.NUM_RAYS = 0 then none
  else some { player := p, maze := m, settings := s,
              half_fov := s.FOV / 2,
              delta_angle := s.FOV / (s.NUM_RAYS : ℚ) }

/-- The absolute angle of ray index `i` in `cast_rays`:
`start_angle + i * delta_angle` with the freshly recomputed
`delta_angle = FOV / NUM_RAYS` and the cached `half_fov`. -/
def castAngle (rc : RaycasterS) (i : ℕ) : ℚ :=
  (rc.player.angle - rc.half_fov) +
    (i : ℚ) * (rc.settings.FOV / (rc.settings.NUM_RAYS : ℚ))

/-- One iteration of the `cast_rays` loop: cast the single ray at
`castAngle rc i`, then apply the fisheye correction
`corrected = raw * cos(radians(angle - player.angle))`. -/
def castOneRay (cosF sinF rad : ℚ → ℚ) (rc : RaycasterS) (i : ℕ) : Ray :=
  let angle := castAngle rc i
  let ray_data := castSingleRay cosF sinF rad rc.player rc.maze
    rc.settings.MAX_DEPTH angle
  let angle_diff := rad (angle - rc.player.angle)
  let corrected_distance := ray_data.distance * cosF angle_diff
  { distance := corrected_distance, angle := angle,
    wall_x := ray_data.wall_x, wall_y := ray_data.wall_y,
    texture_u := ray_data.texture_u, hit_vertical := ray_data.hit_vertical }

/-- `Raycaster.cast_rays` as a state transformer: `_update_settings` first
rewrites the cached `delta_angle` (raising, i.e. `none`, when
`NUM_RAYS = 0`), then the loop builds one record per ray index in
`range(NUM_RAYS)`. -/
def castRaysSt (cosF sinF rad : ℚ → ℚ) (rc : RaycasterS) :
    RaycasterS × Option (List Ray) :=
  if rc.settings.NUM_RAYS = 0 then (rc, none)
  else
    let rc' := { rc with
      delta_angle := rc.settings.FOV / (rc.settings.NUM_RAYS : ℚ) }
    (rc', some ((List.range rc.settings.NUM_RAYS.toNat).map
      (castOneRay cosF sinF rad rc')))

/-- The `cast_rays` result sequence (the empty sequence when the call
raises). -/
def castRaysList (cosF sinF rad : ℚ → ℚ) (rc : RaycasterS) : List Ray :=
  ((castRaysSt cosF sinF rad rc).2).getD []

theorem truncInt_nonpos (q : ℚ) (h : q ≤ 0) : truncInt q ≤ 0 := by
  rcases lt_or_eq_of_le h with hlt | heq
  · rw [truncInt, if_neg (not_le.mpr hlt)]
    have : (0 : ℤ) ≤ ⌊-q⌋ := by
      apply Int.le_floor.mpr; push_cast; linarith
    omega
  · subst heq; simp [truncInt]

theorem findSome?_mem {α β : Type} (l : List α) (f : α → Option β) (b : β)
    (h : l.findSome? f = some b) : ∃ a ∈ l, f a = some b := by
  induction l with
  | nil => simp [List.findSome?] at h
  | cons x xs ih =>
    rw [List.findSome?_cons] at h
    cases hfx : f x with
    | some v =>
      rw [hfx] at h
      simp only at h
      exact ⟨x, by simp, by rw [hfx, h]⟩
    | none =>
      rw [hfx] at h
      simp only at h
      obtain ⟨a, ha, hfa⟩ := ih h
      exact ⟨a, by simp [ha], hfa⟩

/-- C7 — `_can_move_to` returns `false` exactly when at least one of
the four corners of the player's square hitbox, truncated to integer cell
coordinates, lands on a wall cell; otherwise it returns `true`. -/
theorem can_move_to_false_iff_corner_wall (x y : ℚ) (m : Maze)
    (radius : ℚ) :
    canMoveTo x y m radius = false ↔
      (m.is_wall (truncInt (x - radius)) (truncInt (y - radius)) = true ∨
       m.is_wall (truncInt (x + radius)) (truncInt (y - radius)) = true ∨
       m.is_wall (truncInt (x - radius)) (truncInt (y + radius)) = true ∨
       m.is_wall (truncInt (x + radius)) (truncInt (y + radius)) = true) := by
  cases hw1 : m.is_wall (truncInt (x - radius)) (truncInt (y - radius)) <;>
    cases hw2 : m.is_wall (truncInt (x + radius)) (truncInt (y - radius)) <;>
    cases hw3 : m.is_wall (truncInt (x - radius)) (truncInt (y + radius)) <;>
    cases hw4 : m.is_wall (truncInt (x + radius)) (truncInt (y + radius)) <;>
    simp [canMoveTo, hw1, hw2, hw3, hw4]

/-- C8 — `turn` yields `(prior + delta) mod 360`, `set_angle` yields
`a mod 360`, both always in `[0, 360)`; `turn(-400)` from angle 10 gives
330. -/
theorem turn_set_angle_normalized (p : PlayerS) (a d : ℚ) :
    ((p.turn d).angle = qmod (p.angle + d) 360 ∧
      0 ≤ (p.turn d).angle ∧ (p.turn d).angle < 360) ∧
    ((p.set_angle a).angle = qmod a 360 ∧
      0 ≤ (p.set_angle a).angle ∧ (p.set_angle a).angle < 360) ∧
    ((PlayerS.mk 0 0 10).turn (-400)).angle = 330 := by
  refine ⟨⟨rfl, qmod_nonneg _ _ (by norm_num), qmod_lt _ _ (by norm_num)⟩,
    ⟨rfl, qmod_nonneg _ _ (by norm_num), qmod_lt _ _ (by norm_num)⟩, ?_⟩
  show qmod (10 + -400) 360 = 330
  norm_num [qmod]

/-- C10 — `cast_rays` leaves the agent and the maze (and the settings
snapshot and cached `half_fov`) unchanged; the only field it rewrites is
the raycaster's own cached `delta_angle`. -/
theorem cast_rays_readonly (cosF sinF rad : ℚ → ℚ) (rc : RaycasterS) :
    (castRaysSt cosF sinF rad rc).1.player = rc.player ∧
    (castRaysSt cosF sinF rad rc).1.maze = rc.maze ∧
    (castRaysSt cosF sinF rad rc).1.settings = rc.settings ∧
    (castRaysSt cosF sinF rad rc).1.half_fov = rc.half_fov ∧
    (rc.settings.NUM_RAYS ≠ 0 →
      (castRaysSt cosF sinF rad rc).1.delta_angle =
        rc.settings.FOV / (rc.settings.NUM_RAYS : ℚ)) := by
  unfold castRaysSt
  split <;> simp_all

/-- C10 witness — a concrete cast rewrites only `delta_angle`. -/
theorem cast_rays_readonly_witness :
    (castRaysSt (fun _ => 1) (fun _ => 0) (fun q => q)
        ⟨⟨1/2, 1/2, 0⟩, mkMaze [[1]], ⟨60, 3, 1⟩, 30, 20⟩).1.player =
      ⟨1/2, 1/2, 0⟩ ∧
    (castRaysSt (fun _ => 1) (fun _ => 0) (fun q => q)
        ⟨⟨1/2, 1/2, 0⟩, mkMaze [[1]], ⟨60, 3, 1⟩, 30, 20⟩).1.delta_angle =
      20 :=
  ⟨(cast_rays_readonly (fun _ => 1) (fun _ => 0) (fun q => q)
      ⟨⟨1/2, 1/2, 0⟩, mkMaze [[1]], ⟨60, 3, 1⟩, 30, 20⟩).1,
   by
    rw [(cast_rays_readonly (fun _ => 1) (fun _ => 0) (fun q => q)
      ⟨⟨1/2, 1/2, 0⟩, mkMaze [[1]], ⟨60, 3, 1⟩, 30, 20⟩).2.2.2.2
      (by decide)]
    norm_num⟩

/-- C6 — movement is committed per-axis in a fixed order (x first
against the current y, then y against the possibly updated x), so a
diagonal move whose x-component is blocked but whose y-component is open
slides: the y-component is applied while the x-component is rejected. -/
theorem movement_per_axis_sliding (p : PlayerS) (m : Maze)
    (radius dx dy : ℚ) :
    (applyMovement p m radius dx dy).angle = p.angle ∧
    (applyMovement p m radius dx dy).x =
      (if canMoveTo (p.x + dx) p.y m radius then p.x + dx else p.x) ∧
    (applyMovement p m radius dx dy).y =
      (if canMoveTo (applyMovement p m radius dx dy).x (p.y + dy) m radius
        then p.y + dy else p.y) ∧
    (canMoveTo (p.x + dx) p.y m radius = false →
      canMoveTo p.x (p.y + dy) m radius = true →
      applyMovement p m radius dx dy = ⟨p.x, p.y + dy, p.angle⟩) := by
  unfold applyMovement
  cases h1 : canMoveTo (p.x + dx) p.y m radius <;>
    simp only [Bool.false_eq_true, if_false, if_true] <;>
    cases h2 : canMoveTo p.x (p.y + dy) m radius <;>
    cases h3 : canMoveTo (p.x + dx) (p.y + dy) m radius <;>
    simp_all

/-- C6 witness — in a 1×2 open corridor, a diagonal move blocked in x
but open in y slides along the wall: only the y-component is applied. -/
theorem movement_per_axis_sliding_witness :
    canMoveTo (1/2 + 1) (1/2) (mkMaze [[0], [0]]) (1/5) = false ∧
    canMoveTo (1/2) (1/2 + 1) (mkMaze [[0], [0]]) (1/5) = true ∧
    applyMovement ⟨1/2, 1/2, 0⟩ (mkMaze [[0], [0]]) (1/5) 1 1 =
      ⟨1/2, 1/2 + 1, 0⟩ :=
  ⟨by norm_num [canMoveTo, Maze.is_wall, mkMaze, Maze.cell, truncInt],
   by norm_num [canMoveTo, Maze.is_wall, mkMaze, Maze.cell, truncInt],
   (movement_per_axis_sliding ⟨1/2, 1/2, 0⟩ (mkMaze [[0], [0]])
      (1/5) 1 1).2.2.2
     (by norm_num [canMoveTo, Maze.is_wall, mkMaze, Maze.cell, truncInt])
     (by norm_num [canMoveTo, Maze.is_wall, mkMaze, Maze.cell, truncInt])⟩

/-- C4 — `is_wall`/`is_exit` are total: any out-of-bounds integer pair
yields `is_wall = true` and `is_exit = false`; in bounds, `is_wall` holds
exactly when the cell code is 1 and `is_exit` exactly when it is 9, where
the cell code is genuine list indexing whenever the indices are in range. -/
theorem maze_total_bounds_cells (m : Maze) (x y : ℤ) :
    ((x < 0 ∨ y < 0 ∨ (m.width : ℤ) ≤ x ∨ (m.height : ℤ) ≤ y) →
      m.is_wall x y = true ∧ m.is_exit x y = false) ∧
    (0 ≤ x → 0 ≤ y → x < (m.width : ℤ) → y < (m.height : ℤ) →
      ((m.is_wall x y = true ↔ m.cell x y = 1) ∧
       (m.is_exit x y = true ↔ m.cell x y = 9))) ∧
    (∀ (hy : y.toNat < m.maze_data.length)
        (hx : x.toNat < (m.maze_data.get ⟨y.toNat, hy⟩).length),
      m.cell x y = (m.maze_data.get ⟨y.toNat, hy⟩).get ⟨x.toNat, hx⟩) := by
  refine ⟨?_, ?_, ?_⟩
  · intro h
    simp [Maze.is_wall, Maze.is_exit, h]
  · intro hx0 hy0 hxw hyh
    have hcond : ¬(x < 0 ∨ y < 0 ∨ (m.width : ℤ) ≤ x ∨ (m.height : ℤ) ≤ y) := by
      push_neg
      exact ⟨hx0, hy0, hxw, hyh⟩
    constructor <;> simp [Maze.is_wall, Maze.is_exit, if_neg hcond]
  · intro hy hx
    simp [Maze.cell, List.getD_eq_getElem?_getD, List.getElem?_eq_getElem hy]
    rw [List.getElem?_eq_getElem (by simpa using hx)]
    simp

/-- C4 witness — on the concrete grid `[[0,1],[9,0]]`: out-of-bounds
is wall and non-exit; cell `(1,0)` (code 1) is a wall; cell `(0,1)`
(code 9) is an exit. -/
theorem maze_total_bounds_cells_witness :
    (mkMaze [[0, 1], [9, 0]]).is_wall (-1) 0 = true ∧
    (mkMaze [[0, 1], [9, 0]]).is_exit (-1) 0 = false ∧
    (mkMaze [[0, 1], [9, 0]]).is_wall 1 0 = true ∧
    (mkMaze [[0, 1], [9, 0]]).is_exit 0 1 = true :=
  ⟨((maze_total_bounds_cells (mkMaze [[0, 1], [9, 0]]) (-1) 0).1
      (by decide)).1,
   ((maze_total_bounds_cells (mkMaze [[0, 1], [9, 0]]) (-1) 0).1
      (by decide)).2,
   (((maze_total_bounds_cells (mkMaze [[0, 1], [9, 0]]) 1 0).2.1
      (by decide) (by decide) (by decide) (by decide)).1).mpr (by decide),
   (((maze_total_bounds_cells (mkMaze [[0, 1], [9, 0]]) 0 1).2.1
      (by decide) (by decide) (by decide) (by decide)).2).mpr (by decide)⟩

theorem castRaysSt_snd_eq (cosF sinF rad : ℚ → ℚ) (rc : RaycasterS)
    (hn : rc.settings.NUM_RAYS ≠ 0) :
    (castRaysSt cosF sinF rad rc).2 =
      some ((List.range rc.settings.NUM_RAYS.toNat).map
        (castOneRay cosF sinF rad rc)) := by
  rw [castRaysSt, if_neg hn]
  rfl

theorem castRaysList_eq (cosF sinF rad : ℚ → ℚ) (rc : RaycasterS)
    (hn : rc.settings.NUM_RAYS ≠ 0) :
    castRaysList cosF sinF rad rc =
      (List.range rc.settings.NUM_RAYS.toNat).map
        (castOneRay cosF sinF rad rc) := by
  rw [castRaysList, castRaysSt_snd_eq cosF sinF rad rc hn, Option.getD_some]

/-- C1 — with positive `num_rays` and `fov` (and the constructor's
`half_fov = fov/2`), `cast_rays` returns exactly `num_rays` records; the
i-th record's angle is `agent.angle - fov/2 + i * (fov/num_rays)`;
consecutive angles differ by exactly `fov/num_rays`; and every angle lies
in `[agent.angle - fov/2, agent.angle + fov/2)`. -/
theorem cast_rays_fan (cosF sinF rad : ℚ → ℚ) (rc : RaycasterS)
    (hn : 0 < rc.settings.NUM_RAYS) (hf : 0 < rc.settings.FOV)
    (hhalf : rc.half_fov = rc.settings.FOV / 2) :
    ((castRaysSt cosF sinF rad rc).2).isSome = true ∧
    (castRaysList cosF sinF rad rc).length = rc.settings.NUM_RAYS.toNat ∧
    (∀ i, i < (castRaysList cosF sinF rad rc).length →
      ((castRaysList cosF sinF rad rc).getD i default).angle =
        rc.player.angle - rc.settings.FOV / 2 +
          (i : ℚ) * (rc.settings.FOV / (rc.settings.NUM_RAYS : ℚ))) ∧
    (∀ i, i + 1 < (castRaysList cosF sinF rad rc).length →
      ((castRaysList cosF sinF rad rc).getD (i + 1) default).angle -
        ((castRaysList cosF sinF rad rc).getD i default).angle =
        rc.settings.FOV / (rc.settings.NUM_RAYS : ℚ)) ∧
    (∀ i, i < (castRaysList cosF sinF rad rc).length →
      rc.player.angle - rc.settings.FOV / 2 ≤
          ((castRaysList cosF sinF rad rc).getD i default).angle ∧
        ((castRaysList cosF sinF rad rc).getD i default).angle <
          rc.player.angle + rc.settings.FOV / 2) := by
  have hn0 : rc.settings.NUM_RAYS ≠ 0 := ne_of_gt hn
  have hL := castRaysList_eq cosF sinF rad rc hn0
  have hlen : (castRaysList cosF sinF rad rc).length =
      rc.settings.NUM_RAYS.toNat := by
    rw [hL, List.length_map, List.length_range]
  have hget : ∀ i, i < (castRaysList cosF sinF rad rc).length →
      (castRaysList cosF sinF rad rc).getD i default =
        castOneRay cosF sinF rad rc i := by
    intro i hi
    rw [hL] at hi ⊢
    rw [List.getD_eq_getElem _ _ hi]
    simp
  have hangle : ∀ i, i < (castRaysList cosF sinF rad rc).length →
      ((castRaysList cosF sinF rad rc).getD i default).angle =
        rc.player.angle - rc.settings.FOV / 2 +
          (i : ℚ) * (rc.settings.FOV / (rc.settings.NUM_RAYS : ℚ)) := by
    intro i hi
    rw [hget i hi]
    simp [castOneRay, castAngle, hhalf]
  have hnq : (0 : ℚ) < (rc.settings.NUM_RAYS : ℚ) := by exact_mod_cast hn
  have hdelta : 0 < rc.settings.FOV / (rc.settings.NUM_RAYS : ℚ) :=
    div_pos hf hnq
  refine ⟨?_, hlen, hangle, ?_, ?_⟩
  · rw [castRaysSt_snd_eq cosF sinF rad rc hn0]; rfl
  · intro i hi
    rw [hangle (i + 1) hi, hangle i (Nat.lt_of_succ_lt hi)]
    push_cast
    ring
  · intro i hi
    rw [hangle i hi]
    constructor
    · have : (0 : ℚ) ≤ (i : ℚ) *
          (rc.settings.FOV / (rc.settings.NUM_RAYS : ℚ)) :=
        mul_nonneg (by positivity) (le_of_lt hdelta)
      linarith
    · have hiq : (i : ℚ) < (rc.settings.NUM_RAYS : ℚ) := by
        rw [hlen] at hi
        have : (i : ℤ) < rc.settings.NUM_RAYS.toNat := by exact_mod_cast hi
        rw [Int.toNat_of_nonneg (le_of_lt hn)] at this
        exact_mod_cast this
      have hmul : (i : ℚ) * (rc.settings.FOV / (rc.settings.NUM_RAYS : ℚ)) <
          (rc.settings.NUM_RAYS : ℚ) *
            (rc.settings.FOV / (rc.settings.NUM_RAYS : ℚ)) :=
        mul_lt_mul_of_pos_right hiq hdelta
      rw [mul_div_cancel₀ rc.settings.FOV (ne_of_gt hnq)] at hmul
      linarith

/-- A constant-one trig stand-in used by concrete test fixtures. -/
def oneF : ℚ → ℚ := fun _ => 1

/-- A constant-zero trig stand-in used by concrete test fixtures. -/
def zeroF : ℚ → ℚ := fun _ => 0

/-- Fixture: a raycaster over the 1×1 wall grid `[[1]]` with
`FOV = 60`, `NUM_RAYS = 3`, `MAX_DEPTH = 1` (constructed state, so
`half_fov = 30` and `delta_angle = 20`). -/
def rcFanW : RaycasterS :=
  ⟨⟨1/2, 1/2, 0⟩, mkMaze [[1]], ⟨60, 3, 1⟩, 30, 20⟩

/-- C1 witness — the fixture cast returns exactly 3 records and ray 1
has angle `0 - 60/2 + 1 * (60/3) = -10`. -/
theorem cast_rays_fan_witness :
    ((castRaysSt oneF zeroF oneF rcFanW).2).isSome = true ∧
    (castRaysList oneF zeroF oneF rcFanW).length = Int.toNat 3 ∧
    ((castRaysList oneF zeroF oneF rcFanW).getD 1 default).angle = -10 := by
  refine ⟨(cast_rays_fan oneF zeroF oneF rcFanW (by decide) (by decide)
    (by norm_num [rcFanW])).1, ?_, ?_⟩
  · exact (cast_rays_fan oneF zeroF oneF rcFanW (by decide) (by decide)
      (by norm_num [rcFanW])).2.1
  · have h := (cast_rays_fan oneF zeroF oneF rcFanW (by decide) (by decide)
      (by norm_num [rcFanW])).2.2.1 1
      (by
        rw [(cast_rays_fan oneF zeroF oneF rcFanW (by decide) (by decide)
          (by norm_num [rcFanW])).2.1]
        decide)
    rw [h]
    norm_num [rcFanW]

/-- C5 — each returned record's corrected distance equals the raw
single-ray marching distance at the record's angle multiplied by
`cos(radians(angle - agent.angle))`; when the record's angle equals the
agent's angle exactly, the corrected distance equals the raw distance
(given `radians(0) = 0` and `cos(0) = 1`). -/
theorem fisheye_correction (cosF sinF rad : ℚ → ℚ) (rc : RaycasterS)
    (hrad0 : rad 0 = 0) (hcos0 : cosF 0 = 1)
    (hn : rc.settings.NUM_RAYS ≠ 0)
    (i : ℕ) (hi : i < (castRaysList cosF sinF rad rc).length) :
    ((castRaysList cosF sinF rad rc).getD i default).distance =
      (castSingleRay cosF sinF rad rc.player rc.maze rc.settings.MAX_DEPTH
          (((castRaysList cosF sinF rad rc).getD i default).angle)).distance *
        cosF (rad (((castRaysList cosF sinF rad rc).getD i default).angle -
          rc.player.angle)) ∧
    ((((castRaysList cosF sinF rad rc).getD i default).angle =
        rc.player.angle) →
      ((castRaysList cosF sinF rad rc).getD i default).distance =
        (castSingleRay cosF sinF rad rc.player rc.maze rc.settings.MAX_DEPTH
          (((castRaysList cosF sinF rad rc).getD i default).angle)).distance)
    := by
  have hL := castRaysList_eq cosF sinF rad rc hn
  have hget : (castRaysList cosF sinF rad rc).getD i default =
      castOneRay cosF sinF rad rc i := by
    rw [hL] at hi ⊢
    rw [List.getD_eq_getElem _ _ hi]
    simp
  rw [hget]
  constructor
  · rfl
  · intro heq
    have hzero : castAngle rc i - rc.player.angle = 0 := by
      have hang : (castOneRay cosF sinF rad rc i).angle = castAngle rc i :=
        rfl
      rw [hang] at heq
      rw [heq]
      ring
    show (castOneRay cosF sinF rad rc i).distance = _
    simp [castOneRay, hzero, hrad0, hcos0]

/-- Fixture: a raycaster over the open 1×1 grid `[[0]]` with the agent
facing 30°, `FOV = 60`, `NUM_RAYS = 2`, `MAX_DEPTH = 1/5`. -/
def rcFishW : RaycasterS :=
  ⟨⟨1/2, 1/2, 30⟩, mkMaze [[0]], ⟨60, 2, 1/5⟩, 30, 30⟩

/-- C5 witness — in the fixture, ray 1 points exactly along the
agent's facing angle (30°) and its corrected distance equals the raw
marching distance. -/
theorem fisheye_correction_witness :
    ((castRaysList oneF zeroF zeroF rcFishW).getD 1 default).angle = 30 ∧
    ((castRaysList oneF zeroF zeroF rcFishW).getD 1 default).distance =
      (castSingleRay oneF zeroF zeroF ⟨1/2, 1/2, 30⟩ (mkMaze [[0]]) (1/5)
        (((castRaysList oneF zeroF zeroF rcFishW).getD 1 default).angle)
        ).distance := by
  have hL := castRaysList_eq oneF zeroF zeroF rcFishW (by decide)
  have hang : ((castRaysList oneF zeroF zeroF rcFishW).getD 1 default).angle
      = 30 := by
    rw [hL]
    show (castOneRay oneF zeroF zeroF rcFishW 1).angle = 30
    show castAngle rcFishW 1 = 30
    norm_num [castAngle, rcFishW]
  refine ⟨hang, ?_⟩
  exact (fisheye_correction oneF zeroF zeroF rcFishW rfl rfl (by decide) 1
    (by rw [hL]; decide)).2 hang

/-- C2 (amended) — with `num_rays < 0`, `cast_rays` returns the empty
sequence; with `num_rays = 0`, `_update_settings` raises
`ZeroDivisionError` (modelled `none`); with `max_depth ≤ 0`, every
returned record is the open-sky sentinel (zero hit metadata) whose
distance field carries the fisheye factor
`max_depth * cos(radians(angle_i - agent.angle))`. -/
theorem cast_rays_degenerate (cosF sinF rad : ℚ → ℚ) (rc : RaycasterS) :
    (rc.settings.NUM_RAYS = 0 → (castRaysSt cosF sinF rad rc).2 = none) ∧
    (rc.settings.NUM_RAYS < 0 → (castRaysSt cosF sinF rad rc).2 = some []) ∧
    (rc.settings.MAX_DEPTH ≤ 0 →
      ∀ r ∈ castRaysList cosF sinF rad rc,
        r.wall_x = 0 ∧ r.wall_y = 0 ∧ r.texture_u = 0 ∧
        r.hit_vertical = false ∧
        r.distance = rc.settings.MAX_DEPTH *
          cosF (rad (r.angle - rc.player.angle))) := by
  refine ⟨?_, ?_, ?_⟩
  · intro h
    rw [castRaysSt, if_pos h]
  · intro h
    rw [castRaysSt_snd_eq cosF sinF rad rc (ne_of_lt h),
      Int.toNat_of_nonpos (le_of_lt h)]
    rfl
  · intro hmd r hr
    have hn' : (truncInt (rc.settings.MAX_DEPTH / rayStep)).toNat = 0 := by
      have hq : rc.settings.MAX_DEPTH / rayStep ≤ 0 :=
        div_nonpos_of_nonpos_of_nonneg hmd (by norm_num [rayStep])
      exact Int.toNat_of_nonpos (truncInt_nonpos _ hq)
    have hsent : ∀ dx dy, rayMarch rc.player rc.maze rc.settings.MAX_DEPTH
        dx dy = none := by
      intro dx dy
      rw [rayMarch, hn']
      rfl
    by_cases hn0 : rc.settings.NUM_RAYS = 0
    · rw [castRaysList, castRaysSt, if_pos hn0] at hr
      simp at hr
    · rw [castRaysList_eq cosF sinF rad rc hn0] at hr
      obtain ⟨i, hi, hri⟩ := List.mem_map.mp hr
      subst hri
      refine ⟨?_, ?_, ?_, ?_, ?_⟩ <;>
        simp [castOneRay, castSingleRay, hsent, sentinelRay]

/-- Fixture: a raycaster whose settings have `NUM_RAYS = 0`. -/
def rcZeroW : RaycasterS :=
  ⟨⟨1/2, 1/2, 0⟩, mkMaze [[0]], ⟨60, 0, 15⟩, 30, 1⟩

/-- C2 counterexample — with `NUM_RAYS = 0` the cast raises
(`ZeroDivisionError` in `_update_settings`, modelled `none`) instead of
returning the empty sequence the claim promises. -/
theorem cast_rays_zero_rays_raises :
    (castRaysSt oneF zeroF oneF rcZeroW).2 = none ∧
    ¬((castRaysSt oneF zeroF oneF rcZeroW).2 = some []) := by
  constructor
  · rw [castRaysSt, if_pos (by decide : rcZeroW.settings.NUM_RAYS = 0)]
  · rw [castRaysSt, if_pos (by decide : rcZeroW.settings.NUM_RAYS = 0)]
    simp

/-- Fixture: a raycaster whose settings have `NUM_RAYS = -3`. -/
def rcNegW : RaycasterS :=
  ⟨⟨1/2, 1/2, 0⟩, mkMaze [[0]], ⟨60, -3, 15⟩, 30, -20⟩

/-- Fixture: a raycaster whose settings have `MAX_DEPTH = -1`. -/
def rcDepthW : RaycasterS :=
  ⟨⟨1/2, 1/2, 0⟩, mkMaze [[0]], ⟨60, 2, -1⟩, 30, 30⟩

/-- C2 witness — negative `NUM_RAYS` yields the empty sequence;
nonpositive `MAX_DEPTH` yields sentinel records. -/
theorem cast_rays_degenerate_witness :
    (castRaysSt oneF zeroF oneF rcNegW).2 = some [] ∧
    ((castRaysList oneF zeroF oneF rcDepthW).getD 0 default).wall_x = 0 ∧
    ((castRaysList oneF zeroF oneF rcDepthW).getD 0 default).hit_vertical =
      false := by
  have hlen : 0 < (castRaysList oneF zeroF oneF rcDepthW).length := by
    rw [castRaysList_eq oneF zeroF oneF rcDepthW (by decide)]
    decide
  have hmem : (castRaysList oneF zeroF oneF rcDepthW).getD 0 default ∈
      castRaysList oneF zeroF oneF rcDepthW := by
    rw [List.getD_eq_getElem _ _ hlen]
    exact List.getElem_mem hlen
  have h := (cast_rays_degenerate oneF zeroF oneF rcDepthW).2.2
    (by norm_num [rcDepthW]) _ hmem
  exact ⟨(cast_rays_degenerate oneF zeroF oneF rcNegW).2.1 (by decide),
    h.1, h.2.2.2.1⟩

/-- C3 (amended) — a returned record whose single-ray march found no
wall carries the sentinel hit metadata (`wall_x = wall_y = texture_u = 0`,
`hit_vertical = false`) but its distance field is
`max_depth * cos(radians(angle_i - agent.angle))`, which equals
`max_depth` only when the cosine factor is 1 (e.g. the on-axis ray). -/
theorem sentinel_ray_corrected (cosF sinF rad : ℚ → ℚ) (rc : RaycasterS)
    (hn : rc.settings.NUM_RAYS ≠ 0)
    (i : ℕ) (hi : i < (castRaysList cosF sinF rad rc).length)
    (hmiss : rayMarch rc.player rc.maze rc.settings.MAX_DEPTH
        (cosF (rad (((castRaysList cosF sinF rad rc).getD i default).angle)))
        (sinF (rad (((castRaysList cosF sinF rad rc).getD i default).angle)))
      = none) :
    ((castRaysList cosF sinF rad rc).getD i default).wall_x = 0 ∧
    ((castRaysList cosF sinF rad rc).getD i default).wall_y = 0 ∧
    ((castRaysList cosF sinF rad rc).getD i default).texture_u = 0 ∧
    ((castRaysList cosF sinF rad rc).getD i default).hit_vertical = false ∧
    ((castRaysList cosF sinF rad rc).getD i default).distance =
      rc.settings.MAX_DEPTH *
        cosF (rad (((castRaysList cosF sinF rad rc).getD i default).angle -
          rc.player.angle)) := by
  have hL := castRaysList_eq cosF sinF rad rc hn
  have hget : (castRaysList cosF sinF rad rc).getD i default =
      castOneRay cosF sinF rad rc i := by
    rw [hL] at hi ⊢
    rw [List.getD_eq_getElem _ _ hi]
    simp
  rw [hget] at hmiss ⊢
  have hang : (castOneRay cosF sinF rad rc i).angle = castAngle rc i := rfl
  rw [hang] at hmiss
  have hcast : castSingleRay cosF sinF rad rc.player rc.maze
      rc.settings.MAX_DEPTH (castAngle rc i) =
      sentinelRay rc.settings.MAX_DEPTH := by
    simp only [castSingleRay]
    rw [hmiss]
    rfl
  refine ⟨?_, ?_, ?_, ?_, ?_⟩ <;> simp [castOneRay, hcast, sentinelRay]

/-- A piecewise rational stand-in for cosine, exact at 0 and within
1/1000 of `cos(-30°) ≈ 0.8660` away from 0. -/
def cosApx : ℚ → ℚ := fun x => if x = 0 then 1 else 433/500

/-- A rational stand-in for `math.radians` (exact at 0; `-30 ↦ -1/2`,
close to `-30·π/180 ≈ -0.5236`). -/
def radSixty : ℚ → ℚ := fun x => x / 60

/-- Fixture: one ray, `FOV = 60`, agent facing 30° inside the open 1×1
grid, `MAX_DEPTH = 1/5` (so the march never reaches a wall). -/
def rcMissW : RaycasterS :=
  ⟨⟨1/2, 1/2, 30⟩, mkMaze [[0]], ⟨60, 1, 1/5⟩, 30, 60⟩

/-- Every step of the ten-step miss march in the `rcMissW` fixture finds
no wall. -/
theorem marchMissTen :
    rayMarch ⟨1/2, 1/2, 30⟩ (mkMaze [[0]]) (1/5) 1 0 = none := by
  rw [rayMarch]
  have hn10 : (truncInt ((1/5 : ℚ) / rayStep)).toNat = 10 := by
    norm_num [truncInt, rayStep]
    rfl
  rw [hn10]
  apply List.findSome?_eq_none_iff.mpr
  intro i hx
  have hi : i < 10 := List.mem_range.mp hx
  interval_cases i <;>
    norm_num [rayHitTest, Maze.is_wall, mkMaze, Maze.cell, truncInt, rayStep]

/-- C3 counterexample — in the `rcMissW` fixture the single ray (at
absolute angle 0, 30° off-axis) hits no wall, yet the returned record's
distance is `(1/5)·(433/500) = 433/2500 ≠ 1/5 = MAX_DEPTH`: the claim
`distance == max_depth` fails on the sequence returned by `cast_rays`. -/
theorem sentinel_distance_counterexample :
    cosApx (radSixty 0) = 1 ∧
    rayMarch ⟨1/2, 1/2, 30⟩ (mkMaze [[0]]) (1/5) 1 0 = none ∧
    ((castRaysList cosApx zeroF radSixty rcMissW).getD 0 default).wall_x
      = 0 ∧
    ((castRaysList cosApx zeroF radSixty rcMissW).getD 0
      default).hit_vertical = false ∧
    ((castRaysList cosApx zeroF radSixty rcMissW).getD 0 default).distance
      = 433/2500 ∧
    ((433 : ℚ)/2500) ≠ rcMissW.settings.MAX_DEPTH := by
  have hc : cosApx (radSixty 0) = 1 := by norm_num [cosApx, radSixty]
  have hang : castAngle rcMissW 0 = 0 := by
    norm_num [castAngle, rcMissW]
  have hget : (castRaysList cosApx zeroF radSixty rcMissW).getD 0 default =
      castOneRay cosApx zeroF radSixty rcMissW 0 := by
    rw [castRaysList_eq cosApx zeroF radSixty rcMissW (by decide)]
    rfl
  have hcast : castSingleRay cosApx zeroF radSixty ⟨1/2, 1/2, 30⟩
      (mkMaze [[0]]) (1/5) (castAngle rcMissW 0) = sentinelRay (1/5) := by
    simp only [castSingleRay]
    rw [hang, hc, show zeroF (radSixty 0) = (0 : ℚ) from rfl, marchMissTen]
    rfl
  refine ⟨hc, marchMissTen, ?_, ?_, ?_, by norm_num [rcMissW]⟩
  · rw [hget]
    show (castSingleRay cosApx zeroF radSixty ⟨1/2, 1/2, 30⟩ (mkMaze [[0]])
      (1/5) (castAngle rcMissW 0)).wall_x = 0
    rw [hcast]
    rfl
  · rw [hget]
    show (castSingleRay cosApx zeroF radSixty ⟨1/2, 1/2, 30⟩ (mkMaze [[0]])
      (1/5) (castAngle rcMissW 0)).hit_vertical = false
    rw [hcast]
    rfl
  · rw [hget]
    show (castSingleRay cosApx zeroF radSixty ⟨1/2, 1/2, 30⟩ (mkMaze [[0]])
        (1/5) (castAngle rcMissW 0)).distance *
        cosApx (radSixty (castAngle rcMissW 0 - 30)) = 433/2500
    rw [hcast, hang]
    norm_num [sentinelRay, cosApx, radSixty]

/-- C3 witness — with an on-axis trig stand-in the same no-hit fixture
yields the sentinel metadata fields. -/
theorem sentinel_ray_corrected_witness :
    ((castRaysList oneF zeroF zeroF rcMissW).getD 0 default).wall_x = 0 ∧
    ((castRaysList oneF zeroF zeroF rcMissW).getD 0 default).texture_u
      = 0 ∧
    ((castRaysList oneF zeroF zeroF rcMissW).getD 0 default).hit_vertical
      = false := by
  have h := sentinel_ray_corrected oneF zeroF zeroF rcMissW (by decide) 0
    (by rw [castRaysList_eq oneF zeroF zeroF rcMissW (by decide)]; decide)
    (marchMissTen)
  exact ⟨h.1, h.2.2.1, h.2.2.2.1⟩

/-- C9 (amended) — a hit record's `texture_u` is the truncation-based
fractional part of the hit point's y (when `hit_vertical`) or x
(otherwise); it always lies in `(-1, 1)`, and lies in `[0, 1)` whenever
the respective hit coordinate is nonnegative (a hit at a negative
out-of-bounds coordinate yields a negative `texture_u`). -/
theorem texture_u_fields (cosF sinF rad : ℚ → ℚ) (p : PlayerS) (m : Maze)
    (maxDepth angle : ℚ) (r : SingleRay)
    (hhit : rayMarch p m maxDepth (cosF (rad angle)) (sinF (rad angle)) =
      some r) :
    castSingleRay cosF sinF rad p m maxDepth angle = r ∧
    r.texture_u = (if r.hit_vertical = true
      then r.wall_y - truncInt r.wall_y
      else r.wall_x - truncInt r.wall_x) ∧
    (-1 < r.texture_u ∧ r.texture_u < 1) ∧
    (r.hit_vertical = true → 0 ≤ r.wall_y → 0 ≤ r.texture_u) ∧
    (r.hit_vertical = false → 0 ≤ r.wall_x → 0 ≤ r.texture_u) := by
  refine ⟨?_, ?_⟩
  · simp only [castSingleRay]
    rw [hhit]
    rfl
  · rw [rayMarch] at hhit
    obtain ⟨i, hmem, htest⟩ := findSome?_mem _ _ _ hhit
    simp only [rayHitTest] at htest
    by_cases hw : m.is_wall
        (truncInt (p.x + cosF (rad angle) * (↑i * rayStep)))
        (truncInt (p.y + sinF (rad angle) * (↑i * rayStep))) = true
    · rw [if_pos hw] at htest
      have hr := Option.some.inj htest
      subst hr
      cases hb : (truncInt (p.x + cosF (rad angle) *
            (↑i * rayStep - rayStep)) !=
          truncInt (p.x + cosF (rad angle) * (↑i * rayStep))) with
      | false =>
        simp only [hb]
        refine ⟨by simp, ⟨?_, ?_⟩, ?_, ?_⟩
        · simpa using neg_one_lt_sub_truncInt _
        · simpa using sub_truncInt_lt_one _
        · intro hcontra
          simp at hcontra
        · intro _ hx
          simpa using sub_truncInt_nonneg _ (by simpa using hx)
      | true =>
        simp only [hb]
        refine ⟨by simp, ⟨?_, ?_⟩, ?_, ?_⟩
        · simpa using neg_one_lt_sub_truncInt _
        · simpa using sub_truncInt_lt_one _
        · intro _ hy
          simpa using sub_truncInt_nonneg _ (by simpa using hy)
        · intro hcontra
          simp at hcontra
    · rw [if_neg hw] at htest
      exact absurd htest (by simp)

/-- A rational stand-in for the cosine of the test direction
(`(3/5, -4/5)` is a unit vector). -/
def cosNC : ℚ → ℚ := fun _ => 3/5

/-- A rational stand-in for the sine of the test direction. -/
def sinNC : ℚ → ℚ := fun _ => -4/5

/-- In the `[[0,1]]` grid fixture, the march from `(9/10, 1/10)` in
direction `(3/5, -4/5)` first hits at step 9, at hit point
`(126/125, -11/250)` — the y-coordinate is already negative. -/
theorem marchHitNine :
    rayMarch ⟨9/10, 1/10, 0⟩ (mkMaze [[0, 1]]) (1/5) (3/5) (-4/5) =
      some ⟨9/50, 126/125, -11/250, -11/250, true⟩ := by
  rw [rayMarch]
  have hn10 : (truncInt ((1/5 : ℚ) / rayStep)).toNat = 10 := by
    norm_num [truncInt, rayStep]
    rfl
  rw [hn10, show List.range 10 = [0, 1, 2, 3, 4, 5, 6, 7, 8, 9] from rfl]
  have hmiss : ∀ i, i < 9 →
      rayHitTest ⟨9/10, 1/10, 0⟩ (mkMaze [[0, 1]]) (3/5) (-4/5) i = none := by
    intro i hi
    interval_cases i <;>
      norm_num [rayHitTest, Maze.is_wall, mkMaze, Maze.cell, truncInt,
        rayStep]
  have h9 : rayHitTest ⟨9/10, 1/10, 0⟩ (mkMaze [[0, 1]]) (3/5) (-4/5) 9 =
      some ⟨9/50, 126/125, -11/250, -11/250, true⟩ := by
    norm_num [rayHitTest, Maze.is_wall, mkMaze, Maze.cell, truncInt,
      rayStep, SingleRay.mk.injEq]
  simp only [List.findSome?_cons, hmiss 0 (by norm_num),
    hmiss 1 (by norm_num), hmiss 2 (by norm_num), hmiss 3 (by norm_num),
    hmiss 4 (by norm_num), hmiss 5 (by norm_num), hmiss 6 (by norm_num),
    hmiss 7 (by norm_num), hmiss 8 (by norm_num), h9]

/-- C9 counterexample — a hit record produced by a single-ray cast
whose `texture_u` is `-11/250 < 0`, violating the claimed range `[0,1)`
(the ray leaves the grid and hits the out-of-bounds "wall" at a negative
y-coordinate; the direction is the unit vector `(3/5, -4/5)`). -/
theorem texture_u_negative_counterexample :
    castSingleRay cosNC sinNC oneF ⟨9/10, 1/10, 0⟩ (mkMaze [[0, 1]]) (1/5) 0
      = ⟨9/50, 126/125, -11/250, -11/250, true⟩ ∧
    (castSingleRay cosNC sinNC oneF ⟨9/10, 1/10, 0⟩ (mkMaze [[0, 1]]) (1/5)
      0).texture_u < 0 ∧
    (cosNC 0) ^ 2 + (sinNC 0) ^ 2 = 1 := by
  have hcast : castSingleRay cosNC sinNC oneF ⟨9/10, 1/10, 0⟩
      (mkMaze [[0, 1]]) (1/5) 0 =
      ⟨9/50, 126/125, -11/250, -11/250, true⟩ := by
    simp only [castSingleRay]
    rw [show cosNC (oneF 0) = (3/5 : ℚ) from rfl,
      show sinNC (oneF 0) = (-4/5 : ℚ) from rfl, marchHitNine]
    rfl
  refine ⟨hcast, ?_, by norm_num [cosNC, sinNC]⟩
  rw [hcast]
  norm_num

/-- C9 witness — a hit record with nonnegative hit coordinates has
`texture_u` in `[0, 1)` (here `texture_u = 1/2`). -/
theorem texture_u_fields_witness :
    castSingleRay oneF zeroF oneF ⟨1/2, 1/2, 0⟩ (mkMaze [[1]]) (1/50) 0 =
      ⟨0, 1/2, 1/2, 1/2, false⟩ ∧
    (0 : ℚ) ≤ (SingleRay.mk 0 (1/2) (1/2) (1/2) false).texture_u := by
  have hhit : rayMarch ⟨1/2, 1/2, 0⟩ (mkMaze [[1]]) (1/50) (oneF (oneF 0))
      (zeroF (oneF 0)) = some ⟨0, 1/2, 1/2, 1/2, false⟩ := by
    rw [rayMarch]
    have hn1 : (truncInt ((1/50 : ℚ) / rayStep)).toNat = 1 := by
      norm_num [truncInt, rayStep]
    rw [hn1, show List.range 1 = [0] from rfl]
    have hf : rayHitTest ⟨1/2, 1/2, 0⟩ (mkMaze [[1]]) (oneF (oneF 0))
        (zeroF (oneF 0)) 0 = some ⟨0, 1/2, 1/2, 1/2, false⟩ := by
      norm_num [rayHitTest, Maze.is_wall, mkMaze, Maze.cell, truncInt,
        rayStep, oneF, zeroF, SingleRay.mk.injEq]
    simp only [List.findSome?_cons, hf]
  have h := texture_u_fields oneF zeroF oneF ⟨1/2, 1/2, 0⟩ (mkMaze [[1]])
    (1/50) 0 ⟨0, 1/2, 1/2, 1/2, false⟩ hhit
  exact ⟨h.1, h.2.2.2.2 rfl (by norm_num)⟩
